import Mathlib

/-!
Verification of the PillNow verifier decision core
(`backend/verifier/main.py`, endpoint `verify`).

The Python source is shallowly embedded below:
* Python floats become `ℚ` (the code only adds, subtracts, multiplies,
  divides and compares detection coordinates and confidences);
* the detector output (`results`/`boxes` of the YOLO call at line 316)
  becomes an abstract input list `raw : List Detection`, since the model
  itself is an external capability;
* the in-place stable `list.sort(key=confidence, reverse=True)` at line 371
  becomes `List.insertionSort` with the reflexive descending-confidence
  relation, which is the stable descending sort;
* the insertion-ordered `dict` `detections_by_class` becomes an
  association list updated in insertion order;
* the `try`/`except` around inference (lines 304-713) becomes a total
  function returning the failure `VerifyResponse` when no model is loaded;
* the image decode of lines 236-242 (`Image.open`, wrapped in a `try`
  whose handler returns HTTP 400) becomes `image_decode_ok` /
  `verify_request`: in mock mode `Image` is bound to `None` at line 24, so
  the decode raises on every request and the mock branch at line 267 is
  dead code;
* the response model `VerifyResponse` keeps the decision-relevant fields
  (`pass_`, `count`, `classesDetected`, `confidence`); the purely
  informational `annotatedImagePath` and `knnVerification` fields (the KNN
  cross-check is disabled in the source, line 545) are omitted.

The natural-language specification also speaks of a `mismatchReason`.
The Python response has no such field: failure causes are distinguished
only by the decision branch taken (the code logs them at lines 500-526).
`verdict_reason` below names that branch; its `none`-labelled branch order
is modelled from the spec (see its doc-string).
-/

namespace PillNow

/-! ## Python string primitives used by the endpoint -/

/-- Python `str.lower()` restricted to the basic-latin case mapping,
applied characterwise (labels in this code base are ASCII class names). -/
def pyLower (s : String) : String :=
  String.mk (s.data.map Char.toLower)

/-- Python `str.strip()`: drop whitespace from both ends. -/
def pyStrip (s : String) : String :=
  String.mk (((s.data.dropWhile Char.isWhitespace).reverse.dropWhile Char.isWhitespace).reverse)

theorem char_toLower_idem (c : Char) : Char.toLower (Char.toLower c) = Char.toLower c := by
  simp only [Char.toLower]
  by_cases h : c.toNat ≥ 65 ∧ c.toNat ≤ 90
  · rw [if_pos h]
    have hv : (c.toNat + 32).isValidChar := Or.inl (by omega)
    have ht : (Char.ofNat (c.toNat + 32)).toNat = c.toNat + 32 := by
      rw [Char.ofNat, dif_pos hv]; rfl
    rw [if_neg]
    rw [ht]
    omega
  · rw [if_neg h, if_neg h]

theorem pyLower_idem (s : String) : pyLower (pyLower s) = pyLower s := by
  simp only [pyLower, List.map_map]
  exact congrArg String.mk (List.map_congr_left fun c _ => char_toLower_idem c)

/-! ## Data model -/

/-- An axis-aligned detection box `(x1, y1, x2, y2)` in pixel coordinates
(line 332 of the source). -/
structure Box where
  x1 : ℚ
  y1 : ℚ
  x2 : ℚ
  y2 : ℚ
deriving DecidableEq

/-- `(x2 - x1) * (y2 - y1)`, as stored under the `area` key at line 343. -/
def Box.area (b : Box) : ℚ := (b.x2 - b.x1) * (b.y2 - b.y1)

/-- One entry of `all_detections` (lines 339-344). -/
structure Detection where
  class_name : String
  confidence : ℚ
  box : Box
deriving DecidableEq

/-- One entry of `classesDetected` (class `ClassCount`, lines 213-215). -/
structure ClassCount where
  label : String
  n : ℤ
deriving DecidableEq

/-- The decision-relevant fields of the response model (lines 218-224). -/
structure VerifyResponse where
  pass_ : Bool
  count : ℤ
  classesDetected : List ClassCount
  confidence : ℚ
deriving DecidableEq

/-- The mismatch vocabulary of the specification.  The Python response has
no reason field; these values name the decision branches of the code (see
`verdict_reason`). -/
inductive MismatchReason where
  | noMismatch
  | noDetection
  | lowConfidence
  | foreignType
  | typeNotFound
  | countMismatch
  | detectorUnavailable
deriving DecidableEq

/-! ## Geometry utility: `calculate_iou` (lines 349-368) -/

def calculate_iou (box1 box2 : Box) : ℚ :=
  let x1_i := max box1.x1 box2.x1
  let y1_i := max box1.y1 box2.y1
  let x2_i := min box1.x2 box2.x2
  let y2_i := min box1.y2 box2.y2
  if x2_i ≤ x1_i ∨ y2_i ≤ y1_i then 0
  else
    let intersection := (x2_i - x1_i) * (y2_i - y1_i)
    let area1 := (box1.x2 - box1.x1) * (box1.y2 - box1.y1)
    let area2 := (box2.x2 - box2.x1) * (box2.y2 - box2.y1)
    let union := area1 + area2 - intersection
    if 0 < union then intersection / union else 0

theorem calculate_iou_comm (A B : Box) : calculate_iou A B = calculate_iou B A := by
  simp only [calculate_iou]
  rw [max_comm A.x1 B.x1, max_comm A.y1 B.y1, min_comm A.x2 B.x2, min_comm A.y2 B.y2,
    add_comm ((A.x2 - A.x1) * (A.y2 - A.y1)) ((B.x2 - B.x1) * (B.y2 - B.y1))]

theorem calculate_iou_nonneg (A B : Box) : 0 ≤ calculate_iou A B := by
  simp only [calculate_iou]
  split_ifs with h1 h2
  · exact le_refl 0
  · push_neg at h1
    exact le_of_lt (div_pos (mul_pos (by linarith [h1.1]) (by linarith [h1.2])) h2)
  · exact le_refl 0

theorem calculate_iou_le_one (A B : Box) : calculate_iou A B ≤ 1 := by
  simp only [calculate_iou]
  split_ifs with h1 h2
  · exact zero_le_one
  · push_neg at h1
    obtain ⟨hx, hy⟩ := h1
    have hxA : max A.x1 B.x1 < A.x2 := lt_of_lt_of_le hx (min_le_left _ _)
    have hxB : max A.x1 B.x1 < B.x2 := lt_of_lt_of_le hx (min_le_right _ _)
    have hyA : max A.y1 B.y1 < A.y2 := lt_of_lt_of_le hy (min_le_left _ _)
    have hInterA : (min A.x2 B.x2 - max A.x1 B.x1) * (min A.y2 B.y2 - max A.y1 B.y1)
        ≤ (A.x2 - A.x1) * (A.y2 - A.y1) := by
      apply mul_le_mul
      · have := le_max_left A.x1 B.x1
        have := min_le_left A.x2 B.x2
        linarith
      · have := le_max_left A.y1 B.y1
        have := min_le_left A.y2 B.y2
        linarith
      · linarith
      · have h1 := le_max_left A.x1 B.x1
        have h2 := min_le_left A.x2 B.x2
        linarith
    have hInterB : (min A.x2 B.x2 - max A.x1 B.x1) * (min A.y2 B.y2 - max A.y1 B.y1)
        ≤ (B.x2 - B.x1) * (B.y2 - B.y1) := by
      apply mul_le_mul
      · have := le_max_right A.x1 B.x1
        have := min_le_right A.x2 B.x2
        linarith
      · have := le_max_right A.y1 B.y1
        have := min_le_right A.y2 B.y2
        linarith
      · linarith
      · have h1 := le_max_right A.x1 B.x1
        have h2 := min_le_right A.x2 B.x2
        linarith
    rw [div_le_one h2]
    linarith
  · exact zero_le_one

theorem calculate_iou_of_no_overlap (A B : Box)
    (h : min A.x2 B.x2 ≤ max A.x1 B.x1 ∨ min A.y2 B.y2 ≤ max A.y1 B.y1) :
    calculate_iou A B = 0 := by
  simp only [calculate_iou]
  rw [if_pos h]

theorem calculate_iou_of_degenerate (A B : Box) (h : A.area = 0) :
    calculate_iou A B = 0 := by
  have h' : A.x2 - A.x1 = 0 ∨ A.y2 - A.y1 = 0 := mul_eq_zero.mp h
  apply calculate_iou_of_no_overlap
  rcases h' with h' | h'
  · left
    have hx : A.x2 = A.x1 := by linarith
    calc min A.x2 B.x2 ≤ A.x2 := min_le_left _ _
      _ = A.x1 := hx
      _ ≤ max A.x1 B.x1 := le_max_left _ _
  · right
    have hy : A.y2 = A.y1 := by linarith
    calc min A.y2 B.y2 ≤ A.y2 := min_le_left _ _
      _ = A.y1 := hy
      _ ≤ max A.y1 B.y1 := le_max_left _ _

theorem calculate_iou_self (A : Box) (hx : A.x1 < A.x2) (hy : A.y1 < A.y2) :
    calculate_iou A A = 1 := by
  simp only [calculate_iou, max_self, min_self]
  rw [if_neg (by push_neg; exact ⟨hx, hy⟩)]
  have harea : (0:ℚ) < (A.x2 - A.x1) * (A.y2 - A.y1) :=
    mul_pos (by linarith) (by linarith)
  rw [if_pos (by linarith)]
  rw [div_eq_one_iff_eq (by linarith)]
  ring

/-! ## Duplicate suppression (lines 370-384) -/

/-- The ordering key of `all_detections.sort(key=lambda x: x['confidence'],
reverse=True)` (line 371): `a` may come before `b` iff `b`'s confidence is
at most `a`'s. -/
def confGE (a b : Detection) : Prop := b.confidence ≤ a.confidence

instance : DecidableRel confGE := fun a b =>
  inferInstanceAs (Decidable (b.confidence ≤ a.confidence))

instance : IsTotal Detection confGE := ⟨fun a b => le_total b.confidence a.confidence⟩

instance : IsTrans Detection confGE := ⟨fun _ _ _ h1 h2 => le_trans h2 h1⟩

/-- Python's `list.sort` is a stable sort; with the key above it is
extensionally the stable insertion sort with respect to `confGE`. -/
def sortByConfDesc (l : List Detection) : List Detection :=
  List.insertionSort confGE l

/-- One iteration of the duplicate-removal loop (lines 375-384): `det` is
appended to the accepted list unless its IoU with some already-accepted
detection exceeds `0.5`. -/
def suppressStep (acc : List Detection) (det : Detection) : List Detection :=
  if acc.any (fun existing => (1:ℚ)/2 < calculate_iou det.box existing.box) then acc
  else acc ++ [det]

/-- `filtered_detections` (lines 374-384): greedy walk over the
confidence-sorted detections. -/
def filtered_detections (all_detections : List Detection) : List Detection :=
  (sortByConfDesc all_detections).foldl suppressStep []

/-- The compatibility relation maintained between an accepted detection `a`
and any detection `b` accepted after it. -/
def iouCompat (a b : Detection) : Prop := calculate_iou b.box a.box ≤ (1:ℚ)/2

theorem foldl_suppress_decomp (l : List Detection) :
    ∀ acc, ∃ u, u.Sublist l ∧ l.foldl suppressStep acc = acc ++ u := by
  induction l with
  | nil => exact fun acc => ⟨[], List.Sublist.refl _, by simp⟩
  | cons d rest ih =>
    intro acc
    simp only [List.foldl_cons]
    by_cases h : acc.any (fun existing => (1:ℚ)/2 < calculate_iou d.box existing.box)
    · obtain ⟨u, hsub, heq⟩ := ih acc
      refine ⟨u, hsub.cons d, ?_⟩
      rw [suppressStep, if_pos h, heq]
    · obtain ⟨u, hsub, heq⟩ := ih (acc ++ [d])
      refine ⟨d :: u, hsub.cons₂ d, ?_⟩
      rw [suppressStep, if_neg h, heq, List.append_assoc]
      rfl

theorem foldl_suppress_pairwise (l : List Detection) :
    ∀ acc, acc.Pairwise iouCompat → (l.foldl suppressStep acc).Pairwise iouCompat := by
  induction l with
  | nil => exact fun acc h => h
  | cons d rest ih =>
    intro acc hacc
    simp only [List.foldl_cons]
    by_cases h : acc.any (fun existing => (1:ℚ)/2 < calculate_iou d.box existing.box)
    · rw [suppressStep, if_pos h]
      exact ih acc hacc
    · rw [suppressStep, if_neg h]
      apply ih
      rw [List.pairwise_append]
      refine ⟨hacc, List.pairwise_singleton _ _, ?_⟩
      intro a ha b hb
      rw [List.mem_singleton] at hb
      have h' : ∀ x ∈ acc, ¬ ((1:ℚ)/2 < calculate_iou d.box x.box) := by
        intro x hx hlt
        exact h (List.any_eq_true.mpr ⟨x, hx, by simpa using hlt⟩)
      rw [iouCompat, hb]
      exact le_of_not_lt (h' a ha)

theorem foldl_suppress_reject (l : List Detection) :
    ∀ acc, ∀ d ∈ l, d ∉ l.foldl suppressStep acc →
      ∃ a ∈ l.foldl suppressStep acc, (1:ℚ)/2 < calculate_iou d.box a.box := by
  induction l with
  | nil => intro _ d hd; exact absurd hd (List.not_mem_nil d)
  | cons d0 rest ih =>
    intro acc d hd hnot
    simp only [List.foldl_cons] at hnot ⊢
    rcases List.mem_cons.mp hd with rfl | hmem
    · by_cases h : acc.any (fun existing => (1:ℚ)/2 < calculate_iou d.box existing.box)
      · rw [suppressStep, if_pos h] at hnot ⊢
        rw [List.any_eq_true] at h
        obtain ⟨a, ha, hiou⟩ := h
        obtain ⟨u, _, heq⟩ := foldl_suppress_decomp rest acc
        refine ⟨a, ?_, by simpa using hiou⟩
        rw [heq]
        exact List.mem_append_left _ ha
      · exfalso
        rw [suppressStep, if_neg h] at hnot
        obtain ⟨u, _, heq⟩ := foldl_suppress_decomp rest (acc ++ [d])
        apply hnot
        rw [heq]
        exact List.mem_append_left _ (List.mem_append_right _ (List.mem_singleton_self d))
    · exact ih (suppressStep acc d0) d hmem hnot

theorem foldl_suppress_id (l : List Detection) :
    ∀ acc, (acc ++ l).Pairwise iouCompat → l.foldl suppressStep acc = acc ++ l := by
  induction l with
  | nil => intro acc _; simp
  | cons d rest ih =>
    intro acc hpw
    simp only [List.foldl_cons]
    have hstep : suppressStep acc d = acc ++ [d] := by
      rw [suppressStep, if_neg]
      intro hany
      rw [List.any_eq_true] at hany
      obtain ⟨a, ha, hlt⟩ := hany
      rw [decide_eq_true_eq] at hlt
      have hcross : iouCompat a d := by
        rw [List.pairwise_append] at hpw
        exact hpw.2.2 a ha d (List.mem_cons_self d rest)
      exact absurd hlt (not_lt.mpr hcross)
    rw [hstep, ih (acc ++ [d]) (by simpa using hpw)]
    simp

theorem filtered_sublist_sorted (l : List Detection) :
    (filtered_detections l).Sublist (sortByConfDesc l) := by
  obtain ⟨u, hsub, heq⟩ := foldl_suppress_decomp (sortByConfDesc l) []
  rw [filtered_detections, heq]
  simpa using hsub

theorem filtered_pairwise_compat (l : List Detection) :
    (filtered_detections l).Pairwise iouCompat :=
  foldl_suppress_pairwise (sortByConfDesc l) [] (List.Pairwise.nil)

theorem filtered_sorted (l : List Detection) :
    (filtered_detections l).Pairwise confGE :=
  (List.sorted_insertionSort confGE l).sublist (filtered_sublist_sorted l)

theorem filter_conf_orderedInsert (q : ℚ) (a : Detection) (l : List Detection) :
    (List.orderedInsert confGE a l).filter (fun d => d.confidence = q)
      = if a.confidence = q then a :: l.filter (fun d => d.confidence = q)
        else l.filter (fun d => d.confidence = q) := by
  induction l with
  | nil =>
    rw [List.orderedInsert_nil]
    by_cases hq : a.confidence = q
    · simp [List.filter, hq]
    · simp [List.filter, hq]
  | cons b l ih =>
    rw [List.orderedInsert]
    by_cases hr : confGE a b
    · rw [if_pos hr]
      by_cases hq : a.confidence = q
      · simp [List.filter_cons, hq]
      · simp [List.filter_cons, hq]
    · rw [if_neg hr]
      have hab : a.confidence < b.confidence := lt_of_not_le hr
      by_cases hq : a.confidence = q
      · have hbq : ¬ (b.confidence = q) := by rw [← hq]; exact ne_of_gt hab
        rw [if_pos hq]
        simp only [List.filter_cons, hbq, decide_eq_true_eq, if_neg hbq]
        rw [ih, if_pos hq]
        simp [hbq]
      · rw [if_neg hq]
        simp only [List.filter_cons]
        rw [ih, if_neg hq]

/-- Stability of the confidence sort: for every confidence value, the
detections carrying that value appear in the sorted list in their original
relative order. -/
theorem sortByConfDesc_stable (q : ℚ) (l : List Detection) :
    (sortByConfDesc l).filter (fun d => d.confidence = q)
      = l.filter (fun d => d.confidence = q) := by
  induction l with
  | nil => rfl
  | cons d l ih =>
    rw [sortByConfDesc, List.insertionSort]
    rw [filter_conf_orderedInsert]
    by_cases hq : d.confidence = q
    · rw [if_pos hq]
      rw [sortByConfDesc] at ih
      rw [ih]
      simp [List.filter_cons, hq]
    · rw [if_neg hq]
      rw [sortByConfDesc] at ih
      rw [ih]
      simp [List.filter_cons, hq]

/-- Re-sorting the suppressor's output leaves it unchanged. -/
theorem sortByConfDesc_filtered (l : List Detection) :
    sortByConfDesc (filtered_detections l) = filtered_detections l :=
  List.Sorted.insertionSort_eq (filtered_sorted l)

/-- Greedy suppression of a pairwise-compatible list accepts everything. -/
theorem foldl_suppress_of_compat (l : List Detection)
    (h : l.Pairwise iouCompat) : l.foldl suppressStep [] = l :=
  foldl_suppress_id l [] (by simpa using h)

/-! ## Aggregation (lines 389-413) -/

/-- `detections_by_class[class_name] += 1` with insertion-order semantics
(lines 397-400): increment the existing entry or append a new one. -/
def add_detection (m : List ClassCount) (name : String) : List ClassCount :=
  match m with
  | [] => [⟨name, 1⟩]
  | c :: rest =>
    if c.label = name then ⟨c.label, c.n + 1⟩ :: rest
    else c :: add_detection rest name

/-- The insertion-ordered dictionary `detections_by_class` (lines 389-400),
already rendered as the `classesDetected` list (lines 406-408). -/
def detections_by_class (l : List Detection) : List ClassCount :=
  l.foldl (fun m d => add_detection m d.class_name) []

/-- `detected_count = sum(detections_by_class.values())` (line 406). -/
def detected_count (classes : List ClassCount) : ℤ :=
  (classes.map ClassCount.n).sum

/-- `np.mean(all_confidences) if all_confidences else 0.0` (line 412),
where `all_confidences` lists the surviving confidences in order. -/
def mean_confidence (l : List Detection) : ℚ :=
  if l = [] then 0 else (l.map Detection.confidence).sum / (l.length : ℚ)

theorem sum_filter_add_detection (p : String → Bool) (m : List ClassCount) (name : String) :
    (((add_detection m name).filter (fun c => p c.label)).map ClassCount.n).sum
      = ((m.filter (fun c => p c.label)).map ClassCount.n).sum + (if p name then 1 else 0) := by
  induction m with
  | nil =>
    by_cases hp : p name
    · simp [add_detection, List.filter, hp]
    · simp [add_detection, List.filter, hp]
  | cons c rest ih =>
    rw [add_detection]
    by_cases hc : c.label = name
    · rw [if_pos hc]
      by_cases hp : p c.label
      · simp only [List.filter_cons, hp, if_pos, hc ▸ hp]
        simp only [List.map_cons, List.sum_cons, hc, hp, if_pos]
        ring
      · simp only [List.filter_cons]
        simp only [hp, Bool.false_eq_true, if_neg, not_false_iff]
        rw [hc] at hp
        simp [hp]
    · rw [if_neg hc]
      by_cases hp : p c.label
      · simp only [List.filter_cons, hp, if_pos]
        simp only [List.map_cons, List.sum_cons, ih]
        ring
      · simp only [List.filter_cons, hp, Bool.false_eq_true, if_neg, not_false_iff]
        exact ih

theorem sum_filter_detections_by_class (p : String → Bool) (l : List Detection) :
    (((detections_by_class l).filter (fun c => p c.label)).map ClassCount.n).sum
      = ((l.filter (fun d => p d.class_name)).length : ℤ) := by
  suffices h : ∀ m : List ClassCount,
      (((l.foldl (fun m d => add_detection m d.class_name) m).filter
          (fun c => p c.label)).map ClassCount.n).sum
        = ((m.filter (fun c => p c.label)).map ClassCount.n).sum
          + ((l.filter (fun d => p d.class_name)).length : ℤ) by
    have := h []
    simpa [detections_by_class] using this
  induction l with
  | nil => intro m; simp
  | cons d rest ih =>
    intro m
    simp only [List.foldl_cons]
    rw [ih (add_detection m d.class_name), sum_filter_add_detection]
    by_cases hp : p d.class_name
    · simp only [List.filter_cons, hp, if_pos, List.length_cons]
      push_cast
      ring
    · simp only [List.filter_cons, hp, Bool.false_eq_true, if_neg, not_false_iff]
      ring

theorem exists_label_add_detection (p : String → Prop) (m : List ClassCount) (name : String) :
    (∃ c ∈ add_detection m name, p c.label) ↔ (∃ c ∈ m, p c.label) ∨ p name := by
  induction m with
  | nil => simp [add_detection]
  | cons c rest ih =>
    rw [add_detection]
    by_cases hc : c.label = name
    · rw [if_pos hc]
      constructor
      · rintro ⟨x, hx, hpx⟩
        rcases List.mem_cons.mp hx with rfl | hx'
        · exact Or.inr (hc ▸ hpx)
        · exact Or.inl ⟨x, List.mem_cons_of_mem _ hx', hpx⟩
      · rintro (⟨x, hx, hpx⟩ | hname)
        · rcases List.mem_cons.mp hx with rfl | hx'
          · exact ⟨⟨x.label, x.n + 1⟩, List.mem_cons_self _ _, hpx⟩
          · exact ⟨x, List.mem_cons_of_mem _ hx', hpx⟩
        · exact ⟨⟨c.label, c.n + 1⟩, List.mem_cons_self _ _, hc ▸ hname⟩
    · rw [if_neg hc]
      constructor
      · rintro ⟨x, hx, hpx⟩
        rcases List.mem_cons.mp hx with rfl | hx'
        · exact Or.inl ⟨x, List.mem_cons_self _ _, hpx⟩
        · rcases (ih.mp ⟨x, hx', hpx⟩) with h | h
          · obtain ⟨y, hy, hpy⟩ := h
            exact Or.inl ⟨y, List.mem_cons_of_mem _ hy, hpy⟩
          · exact Or.inr h
      · rintro (⟨x, hx, hpx⟩ | hname)
        · rcases List.mem_cons.mp hx with rfl | hx'
          · exact ⟨x, List.mem_cons_self _ _, hpx⟩
          · obtain ⟨y, hy, hpy⟩ := ih.mpr (Or.inl ⟨x, hx', hpx⟩)
            exact ⟨y, List.mem_cons_of_mem _ hy, hpy⟩
        · obtain ⟨y, hy, hpy⟩ := ih.mpr (Or.inr hname)
          exact ⟨y, List.mem_cons_of_mem _ hy, hpy⟩

theorem exists_label_detections_by_class (p : String → Prop) (l : List Detection) :
    (∃ c ∈ detections_by_class l, p c.label) ↔ ∃ d ∈ l, p d.class_name := by
  suffices h : ∀ m : List ClassCount,
      (∃ c ∈ l.foldl (fun m d => add_detection m d.class_name) m, p c.label)
        ↔ (∃ c ∈ m, p c.label) ∨ ∃ d ∈ l, p d.class_name by
    have := h []
    simpa [detections_by_class] using this
  induction l with
  | nil => intro m; simp
  | cons d rest ih =>
    intro m
    simp only [List.foldl_cons]
    rw [ih (add_detection m d.class_name)]
    rw [exists_label_add_detection]
    constructor
    · rintro ((h | h) | h)
      · exact Or.inl h
      · exact Or.inr ⟨d, List.mem_cons_self _ _, h⟩
      · obtain ⟨x, hx, hpx⟩ := h
        exact Or.inr ⟨x, List.mem_cons_of_mem _ hx, hpx⟩
    · rintro (h | h)
      · exact Or.inl (Or.inl h)
      · obtain ⟨x, hx, hpx⟩ := h
        rcases List.mem_cons.mp hx with rfl | hx'
        · exact Or.inl (Or.inr hpx)
        · exact Or.inr ⟨x, hx', hpx⟩

theorem detected_count_eq_length (l : List Detection) :
    detected_count (detections_by_class l) = (l.length : ℤ) := by
  have h := sum_filter_detections_by_class (fun _ => true) l
  simpa [detected_count, List.filter_true] using h

/-! ## Expectation parsing (lines 244-264) -/

/-- The already-JSON-parsed `expected` object: the four alternative label
keys and the (successfully `int`-converted) `count`.  `count = none` models
both an absent key and a failed conversion, which the code collapses to
`expected_count = 0` (lines 247-251). -/
structure Expectation where
  label : Option String
  pill : Option String
  pillType : Option String
  pill_name : Option String
  count : Option ℤ
deriving DecidableEq

/-- Python's `a or b` on optional strings: `none` and the empty string are
falsy. -/
def orTruthy (a b : Option String) : Option String :=
  match a with
  | some s => if s = "" then b else some s
  | none => b

/-- `expected_obj.get("label") or expected_obj.get("pill") or
expected_obj.get("pillType") or expected_obj.get("pill_name")` (line 255). -/
def raw_expected_label (e : Expectation) : Option String :=
  orTruthy e.label (orTruthy e.pill (orTruthy e.pillType e.pill_name))

/-- The normalised expected label: `str(x).strip().lower()` when the raw
value is truthy (lines 257-259).  A whitespace-only raw label normalises to
`""`, which every later `if expected_label:` treats as absent, so it is
collapsed to `none` here. -/
def expected_label_of (e : Expectation) : Option String :=
  match raw_expected_label e with
  | none => none
  | some s =>
    let t := pyLower (pyStrip s)
    if t = "" then none else some t

/-- `expected_count` (lines 245-251). -/
def expected_count_of (e : Expectation) : ℤ := e.count.getD 0

theorem expected_label_lower_idem (e : Expectation) (lbl : String)
    (h : expected_label_of e = some lbl) : pyLower lbl = lbl := by
  rw [expected_label_of] at h
  rcases hr : raw_expected_label e with _ | s
  · rw [hr] at h; exact absurd h (by simp)
  · rw [hr] at h
    simp only at h
    by_cases ht : pyLower (pyStrip s) = ""
    · rw [if_pos ht] at h; exact absurd h (by simp)
    · rw [if_neg ht] at h
      have : lbl = pyLower (pyStrip s) := by
        injection h with h'; exact h'.symm
      rw [this, pyLower_idem]

/-! ## Verdict engine (lines 467-526) -/

/-- `sum(c.n for c in detected_classes if c.label.lower() == expected_label)`
(line 479). -/
def expected_type_count (expected_label : String) (classes : List ClassCount) : ℤ :=
  ((classes.filter (fun c => pyLower c.label = expected_label)).map ClassCount.n).sum

/-- `sum(c.n for c in detected_classes if c.label.lower() != expected_label)`
(line 480). -/
def foreign_type_count (expected_label : String) (classes : List ClassCount) : ℤ :=
  ((classes.filter (fun c => ¬ (pyLower c.label = expected_label))).map ClassCount.n).sum

/-- `expected_label in detected_labels` (line 495), with
`detected_labels = {c.label.lower() for c in detected_classes}` (line 477). -/
def has_expected_type (expected_label : String) (classes : List ClassCount) : Prop :=
  ∃ c ∈ classes, pyLower c.label = expected_label

instance (lbl : String) (classes : List ClassCount) :
    Decidable (has_expected_type lbl classes) := by
  unfold has_expected_type
  infer_instance

/-- `confidence_threshold = 0.3` (line 470). -/
def confidence_threshold : ℚ := 3/10

/-- The pass/fail decision of lines 476-526: the labelled branch follows
the `has_foreign_pills` / `has_expected_type` / `count_match` chain of
lines 500-520, the unlabelled branch is line 524-525.  The initial
assignment at line 473 is dead (both branches overwrite `pass_`). -/
def verify_pass (expected_label : Option String) (expected_count : ℤ)
    (classes : List ClassCount) (dcount : ℤ) (confidence : ℚ) : Bool :=
  match expected_label with
  | some lbl =>
    if 0 < foreign_type_count lbl classes then false
    else if ¬ has_expected_type lbl classes then false
    else if ¬ (0 < expected_count → expected_type_count lbl classes = expected_count) then false
    else true
  | none =>
    decide ((0 < expected_count → dcount = expected_count)
      ∧ confidence_threshold ≤ confidence)

/-- The mismatch reason of the verdict.  The Python response carries no
reason field; this function names the decision branch the code takes.  For
a present label the branch order is literally that of lines 500-520
(foreign pills, then missing expected type, then count).  For an absent
label the code only computes a boolean (lines 524-525); the order
`no-detection`, `low-confidence`, `count-mismatch` of the failure cases is
modelled from the spec (§4.5). -/
def verdict_reason (expected_label : Option String) (expected_count : ℤ)
    (classes : List ClassCount) (dcount : ℤ) (confidence : ℚ) : MismatchReason :=
  match expected_label with
  | some lbl =>
    if 0 < foreign_type_count lbl classes then .foreignType
    else if ¬ has_expected_type lbl classes then .typeNotFound
    else if ¬ (0 < expected_count → expected_type_count lbl classes = expected_count) then
      .countMismatch
    else .noMismatch
  | none =>
    if (0 < expected_count → dcount = expected_count)
        ∧ confidence_threshold ≤ confidence then .noMismatch
    else if dcount = 0 then .noDetection
    else if confidence < confidence_threshold then .lowConfidence
    else .countMismatch

/-! ## The endpoint -/

/-- The non-mock inference path of `verify` (lines 298-759) as a function of
the detector's output `raw`.  `model_loaded = false` models
`yolo_model is None`: the raised exception (line 306) is caught at line 702
and mapped to the failing response of lines 707-713, so the whole path is a
total function into `VerifyResponse`. -/
def verify_main (model_loaded : Bool) (expected_label : Option String)
    (expected_count : ℤ) (raw : List Detection) : VerifyResponse :=
  if model_loaded then
    let filtered := filtered_detections raw
    let classes := detections_by_class filtered
    let dcount := detected_count classes
    let conf := mean_confidence filtered
    { pass_ := verify_pass expected_label expected_count classes dcount conf,
      count := dcount,
      classesDetected := classes,
      confidence := conf }
  else
    { pass_ := false, count := 0, classesDetected := [], confidence := 0 }

/-- The decision branch taken by the non-mock path (companion of
`verify_main`; `detector-unavailable` names the exception branch of lines
702-713, following §7 of the spec). -/
def main_reason (model_loaded : Bool) (expected_label : Option String)
    (expected_count : ℤ) (raw : List Detection) : MismatchReason :=
  if model_loaded then
    let filtered := filtered_detections raw
    let classes := detections_by_class filtered
    verdict_reason expected_label expected_count classes (detected_count classes)
      (mean_confidence filtered)
  else
    .detectorUnavailable

/-- The mock branch of `verify` (lines 266-296): the deterministic
response its body computes without inspecting the image.  In the shipped
code this branch is unreachable — with `MOCK_VERIFIER` set, `Image` is
`None` (line 24) and the decode at lines 236-242 raises HTTP 400 on every
request before line 267 is reached (see `image_decode_ok` and
`verify_request`). -/
def mock_verify (e : Expectation) : VerifyResponse :=
  let cnt : ℤ := if 0 < expected_count_of e then expected_count_of e else 1
  let classes : List ClassCount :=
    match expected_label_of e with
    | some lbl => [⟨lbl, cnt⟩]
    | none => [⟨"pill_mock", cnt⟩]
  { pass_ := true, count := cnt, classesDetected := classes, confidence := 95/100 }

/-- The two decision branches of the endpoint as they are written after
expectation parsing and image decode: mock branch (lines 266-296) or
inference path (lines 298-759).  This is a superset of the reachable
behaviors: in the shipped code the mock branch is dead — in mock mode the
decode at lines 236-242 already fails (see `image_decode_ok` and
`verify_request`), so every actually returned `VerifyResponse` comes from
the inference path. -/
def verify_endpoint (mock model_loaded : Bool) (e : Expectation)
    (raw : List Detection) : VerifyResponse :=
  if mock then mock_verify e
  else verify_main model_loaded (expected_label_of e) (expected_count_of e) raw

/-- Decision branch of the whole endpoint (the mock branch always passes). -/
def endpoint_reason (mock model_loaded : Bool) (e : Expectation)
    (raw : List Detection) : MismatchReason :=
  if mock then .noMismatch
  else main_reason model_loaded (expected_label_of e) (expected_count_of e) raw

/-- The outcome of one `/verify` request after JSON parsing: either an
`HTTPException` with its status code (raised by the image-decode handler
at lines 241-242) or a returned `VerifyResponse`. -/
inductive RequestResult where
  | httpError (status : ℕ)
  | response (r : VerifyResponse)
deriving DecidableEq

/-- Whether the image decode at lines 236-242 succeeds.  With
`MOCK_VERIFIER` set, `Image` is bound to `None` at line 24, so
`Image.open(...)` at line 237 raises `AttributeError` on every request and
the handler at lines 241-242 turns it into HTTP 400; without the flag the
decode succeeds iff the uploaded bytes are a decodable image (`image_ok`,
an external fact about the bytes). -/
def image_decode_ok (mock image_ok : Bool) : Bool :=
  if mock then false else image_ok

/-- The full request path of `verify` after JSON parsing (lines 234-759):
the image decode runs first (lines 236-242) and rejects with HTTP 400 when
it fails — in particular on every mock-mode request, before the mock check
at line 267 — and only then do the mock branch and the inference path of
`verify_endpoint` run. -/
def verify_request (mock model_loaded image_ok : Bool) (e : Expectation)
    (raw : List Detection) : RequestResult :=
  if image_decode_ok mock image_ok then
    RequestResult.response (verify_endpoint mock model_loaded e raw)
  else RequestResult.httpError 400

/-! ## Specification-only definitions (for refinement claims) -/

/-- Modelled from the spec: the quality-filter stage of §4.2, absent from
the code.  A detection survives iff `confidence >= minConfidence AND
area >= minArea AND minAspectRatio <= aspectRatio <= maxAspectRatio`,
where the aspect value is width/height. -/
def specQualityFilter (minConfidence minArea minAspect maxAspect : ℚ)
    (l : List Detection) : List Detection :=
  l.filter fun d =>
    minConfidence ≤ d.confidence ∧ minArea ≤ d.box.area
    ∧ minAspect ≤ (d.box.x2 - d.box.x1) / (d.box.y2 - d.box.y1)
    ∧ (d.box.x2 - d.box.x1) / (d.box.y2 - d.box.y1) ≤ maxAspect

/-- Modelled from the spec: the area-weighted overall confidence of §4.4,
`sum(conf_i * area_i) / sum(area_i)`, with arithmetic-mean fallback when
the total area is `0` and `0.0` for an empty survivor set. -/
def specWeightedConfidence (l : List Detection) : ℚ :=
  if l = [] then 0
  else
    let totalArea := (l.map (fun d => d.box.area)).sum
    if totalArea = 0 then (l.map Detection.confidence).sum / (l.length : ℚ)
    else (l.map (fun d => d.confidence * d.box.area)).sum / totalArea

/-! ## Shared concrete inputs for witnesses and counterexamples -/

def boxA : Box := ⟨0, 0, 10, 10⟩

def boxB : Box := ⟨20, 20, 30, 30⟩

def redDet : Detection := ⟨"red", 9/10, boxA⟩

def blueDet : Detection := ⟨"blue", 95/100, boxB⟩

/-! ## Claims -/

/-- C8: for all boxes `A`, `B`, `calculate_iou` is symmetric and bounded in
`[0,1]`; it returns `0` when the intersection is empty (width or height
non-positive) and on degenerate zero-area boxes, without division errors
(it is a total function on `ℚ`); and it is `1` on a non-degenerate box
against itself. -/
theorem C8_iou_symmetry_bounds (A B : Box) :
    calculate_iou A B = calculate_iou B A
    ∧ 0 ≤ calculate_iou A B
    ∧ calculate_iou A B ≤ 1
    ∧ ((min A.x2 B.x2 ≤ max A.x1 B.x1 ∨ min A.y2 B.y2 ≤ max A.y1 B.y1) →
        calculate_iou A B = 0)
    ∧ (A.area = 0 → calculate_iou A B = 0)
    ∧ (A.x1 < A.x2 → A.y1 < A.y2 → calculate_iou A A = 1) :=
  ⟨calculate_iou_comm A B, calculate_iou_nonneg A B, calculate_iou_le_one A B,
   calculate_iou_of_no_overlap A B, calculate_iou_of_degenerate A B,
   fun hx hy => calculate_iou_self A hx hy⟩

theorem C8_iou_symmetry_bounds_witness :
    calculate_iou boxA boxB = calculate_iou boxB boxA
    ∧ calculate_iou boxA boxB = 0
    ∧ calculate_iou ⟨0, 0, 0, 5⟩ boxB = 0
    ∧ calculate_iou boxA boxA = 1 :=
  ⟨(C8_iou_symmetry_bounds boxA boxB).1,
   (C8_iou_symmetry_bounds boxA boxB).2.2.2.1 (by norm_num [boxA, boxB]),
   (C8_iou_symmetry_bounds ⟨0, 0, 0, 5⟩ boxB).2.2.2.2.1 (by norm_num [Box.area]),
   (C8_iou_symmetry_bounds boxA boxA).2.2.2.2.2 (by norm_num [boxA]) (by norm_num [boxA])⟩

/-- C7: the duplicate suppressor first sorts descending by confidence with
stable ties (a permutation, sorted for `confGE`, preserving the relative
order of equal confidences), then greedily walks the sorted list: the
output is a subsequence of the sorted list (hence confidence-descending,
i.e. acceptance order), every accepted detection has IoU at most the `0.5`
threshold with every earlier-accepted one, and every discarded detection
has IoU above the threshold with some accepted detection. -/
theorem C7_duplicate_suppressor (l : List Detection) :
    (sortByConfDesc l).Perm l
    ∧ (sortByConfDesc l).Pairwise confGE
    ∧ (∀ q : ℚ, (sortByConfDesc l).filter (fun d => d.confidence = q)
        = l.filter (fun d => d.confidence = q))
    ∧ (filtered_detections l).Sublist (sortByConfDesc l)
    ∧ (filtered_detections l).Pairwise confGE
    ∧ (filtered_detections l).Pairwise iouCompat
    ∧ (∀ d ∈ sortByConfDesc l, d ∉ filtered_detections l →
        ∃ a ∈ filtered_detections l, (1:ℚ)/2 < calculate_iou d.box a.box) :=
  ⟨List.perm_insertionSort confGE l, List.sorted_insertionSort confGE l,
   fun q => sortByConfDesc_stable q l, filtered_sublist_sorted l, filtered_sorted l,
   filtered_pairwise_compat l, foldl_suppress_reject (sortByConfDesc l) []⟩

def lowDet : Detection := ⟨"pill", 1/2, boxA⟩

def highDet : Detection := ⟨"pill", 9/10, boxA⟩

theorem C7_duplicate_suppressor_witness :
    lowDet ∈ sortByConfDesc [lowDet, highDet]
    ∧ lowDet ∉ filtered_detections [lowDet, highDet]
    ∧ ∃ a ∈ filtered_detections [lowDet, highDet],
        (1:ℚ)/2 < calculate_iou lowDet.box a.box := by
  have hsort : sortByConfDesc [lowDet, highDet] = [highDet, lowDet] := by
    norm_num [sortByConfDesc, List.insertionSort, List.orderedInsert, confGE, lowDet, highDet]
  have hfilt : filtered_detections [lowDet, highDet] = [highDet] := by
    rw [filtered_detections, hsort]
    norm_num [suppressStep, calculate_iou, lowDet, highDet, boxA]
  have hmem : lowDet ∈ sortByConfDesc [lowDet, highDet] := by
    rw [hsort]; simp
  have hnot : lowDet ∉ filtered_detections [lowDet, highDet] := by
    rw [hfilt]
    norm_num [lowDet, highDet]
  exact ⟨hmem, hnot,
    (C7_duplicate_suppressor [lowDet, highDet]).2.2.2.2.2.2 lowDet hmem hnot⟩

/-- C9: the duplicate suppressor is idempotent — applied to its own output
it returns that output unchanged. -/
theorem C9_dedup_idempotent (l : List Detection) :
    filtered_detections (filtered_detections l) = filtered_detections l := by
  conv_lhs => rw [filtered_detections]
  rw [sortByConfDesc_filtered]
  exact foldl_suppress_of_compat _ (filtered_pairwise_compat l)

theorem filtered_detections_singleton (d : Detection) : filtered_detections [d] = [d] := by
  simp [filtered_detections, sortByConfDesc, List.insertionSort, List.orderedInsert,
    suppressStep]

def floorDet : Detection := ⟨"pill", 3/10, ⟨0, 0, 1, 1⟩⟩

/-- C4 counterexample: a detection at the detector's own confidence floor
(`conf = 0.3`), with area `1` and aspect value `1`, is rejected by the
spec's quality filter under a configuration tighter than the detector's
threshold (`minConfidence = 0.4`, `minArea = 50`, aspect in `[0.5, 2]`),
yet the code counts it and even passes the verdict on it: no independently
configurable quality-filter stage exists between the detector and the
duplicate suppressor. -/
theorem C4_quality_filter_counterexample :
    specQualityFilter (2/5) 50 (1/2) 2 [floorDet] = []
    ∧ (verify_main true none 0 [floorDet]).count = 1
    ∧ (verify_main true none 0 [floorDet]).pass_ = true := by
  refine ⟨?_, ?_, ?_⟩
  · norm_num [specQualityFilter, floorDet, Box.area]
  · norm_num [verify_main, filtered_detections, sortByConfDesc, List.insertionSort,
      List.orderedInsert, suppressStep, floorDet, detections_by_class, add_detection,
      detected_count]
  · norm_num [verify_main, filtered_detections, sortByConfDesc, List.insertionSort,
      List.orderedInsert, suppressStep, floorDet, detections_by_class, add_detection,
      detected_count, mean_confidence, verify_pass, confidence_threshold]

/-- C4 (amended): the code has no quality-filter stage at all.  Every raw
detection — regardless of its confidence, area or aspect value — survives
to aggregation, subject only to IoU-based duplicate suppression; the sole
confidence gate is the detector's own `conf=0.3` call parameter, which is
not a stage of this code. -/
theorem C4_no_quality_filter (d : Detection) :
    filtered_detections [d] = [d]
    ∧ (verify_main true none 0 [d]).count = 1
    ∧ (verify_main true none 0 [d]).classesDetected = [⟨d.class_name, 1⟩] := by
  have hfilt : filtered_detections [d] = [d] := filtered_detections_singleton d
  refine ⟨hfilt, ?_, ?_⟩
  · simp [verify_main, hfilt, detections_by_class, add_detection, detected_count]
  · simp [verify_main, hfilt, detections_by_class, add_detection]

def bigDet : Detection := ⟨"pill", 9/10, ⟨0, 0, 10, 10⟩⟩

def widerDet : Detection := ⟨"pill", 1/2, ⟨20, 0, 50, 10⟩⟩

/-- C2 counterexample: the spec's own example — survivors with
`(conf=0.9, area=100)` and `(conf=0.5, area=300)` — yields reported
confidence `0.7` (the arithmetic mean), not the claimed area-weighted
`0.6`. -/
theorem C2_weighted_confidence_counterexample :
    filtered_detections [bigDet, widerDet] = [bigDet, widerDet]
    ∧ (verify_main true none 0 [bigDet, widerDet]).confidence = 7/10
    ∧ specWeightedConfidence [bigDet, widerDet] = 3/5
    ∧ ¬ ((7:ℚ)/10 = 3/5) := by
  have hsort : sortByConfDesc [bigDet, widerDet] = [bigDet, widerDet] := by
    norm_num [sortByConfDesc, List.insertionSort, List.orderedInsert, confGE,
      bigDet, widerDet]
  have hfilt : filtered_detections [bigDet, widerDet] = [bigDet, widerDet] := by
    rw [filtered_detections, hsort]
    norm_num [suppressStep, calculate_iou, bigDet, widerDet]
  refine ⟨hfilt, ?_, ?_, by norm_num⟩
  · have hconf : (verify_main true none 0 [bigDet, widerDet]).confidence
        = mean_confidence (filtered_detections [bigDet, widerDet]) := rfl
    rw [hconf, hfilt]
    norm_num [mean_confidence, bigDet, widerDet, List.cons_ne_nil]
  · norm_num [specWeightedConfidence, Box.area, bigDet, widerDet, List.cons_ne_nil]

/-- C2 (amended): the overall confidence reported by the verdict is the
plain arithmetic mean of the surviving detections' confidences —
`sum(conf_i) / n`, with `0.0` for an empty survivor set — with no area
weighting; on the spec's example it is `0.7`. -/
theorem C2_confidence_is_arithmetic_mean (expected_label : Option String)
    (expected_count : ℤ) (raw : List Detection) :
    (verify_main true expected_label expected_count raw).confidence
      = if filtered_detections raw = [] then 0
        else ((filtered_detections raw).map Detection.confidence).sum
          / (((filtered_detections raw).length : ℚ)) := by
  simp [verify_main, mean_confidence]

theorem verify_main_true_eq (expected_label : Option String) (expected_count : ℤ)
    (raw : List Detection) :
    verify_main true expected_label expected_count raw =
      { pass_ := verify_pass expected_label expected_count
          (detections_by_class (filtered_detections raw))
          (detected_count (detections_by_class (filtered_detections raw)))
          (mean_confidence (filtered_detections raw)),
        count := detected_count (detections_by_class (filtered_detections raw)),
        classesDetected := detections_by_class (filtered_detections raw),
        confidence := mean_confidence (filtered_detections raw) } := rfl

theorem main_reason_true_eq (expected_label : Option String) (expected_count : ℤ)
    (raw : List Detection) :
    main_reason true expected_label expected_count raw =
      verdict_reason expected_label expected_count
        (detections_by_class (filtered_detections raw))
        (detected_count (detections_by_class (filtered_detections raw)))
        (mean_confidence (filtered_detections raw)) := rfl

theorem foreign_type_count_eq_length (lbl : String) (l : List Detection) :
    foreign_type_count lbl (detections_by_class l)
      = ((l.filter (fun d => decide (¬ pyLower d.class_name = lbl))).length : ℤ) :=
  sum_filter_detections_by_class (fun nm => decide (¬ pyLower nm = lbl)) l

theorem expected_type_count_eq_length (lbl : String) (l : List Detection) :
    expected_type_count lbl (detections_by_class l)
      = ((l.filter (fun d => decide (pyLower d.class_name = lbl))).length : ℤ) :=
  sum_filter_detections_by_class (fun nm => decide (pyLower nm = lbl)) l

/-- C1: with an expected label present, the foreign-type check has highest
priority — if any surviving detection's lowercased label differs from the
(normalised) expected label, the verdict fails with the foreign-type
reason, for every count expectation (in particular even when the expected
label's own count matches exactly). -/
theorem C1_foreign_type_priority (lbl : String) (cnt : ℤ) (raw : List Detection)
    (h : ∃ d ∈ filtered_detections raw, ¬ pyLower d.class_name = lbl) :
    (verify_main true (some lbl) cnt raw).pass_ = false
    ∧ main_reason true (some lbl) cnt raw = MismatchReason.foreignType := by
  have hpos : 0 < foreign_type_count lbl (detections_by_class (filtered_detections raw)) := by
    rw [foreign_type_count_eq_length]
    obtain ⟨d, hd, hforeign⟩ := h
    have hmem : d ∈ (filtered_detections raw).filter
        (fun d => decide (¬ pyLower d.class_name = lbl)) :=
      List.mem_filter.mpr ⟨hd, by simpa using hforeign⟩
    exact_mod_cast List.length_pos.mpr (List.ne_nil_of_mem hmem)
  rw [verify_main_true_eq, main_reason_true_eq]
  constructor
  · simp only [verify_pass]
    rw [if_pos hpos]
  · simp only [verdict_reason]
    rw [if_pos hpos]

theorem C1_foreign_type_priority_witness :
    (∃ d ∈ filtered_detections [redDet, blueDet], ¬ pyLower d.class_name = "red")
    ∧ expected_type_count "red" (detections_by_class (filtered_detections [redDet, blueDet])) = 1
    ∧ (verify_main true (some "red") 1 [redDet, blueDet]).pass_ = false
    ∧ main_reason true (some "red") 1 [redDet, blueDet] = MismatchReason.foreignType := by
  have hsort : sortByConfDesc [redDet, blueDet] = [blueDet, redDet] := by
    norm_num [sortByConfDesc, List.insertionSort, List.orderedInsert, confGE, redDet, blueDet]
  have hfilt : filtered_detections [redDet, blueDet] = [blueDet, redDet] := by
    rw [filtered_detections, hsort]
    norm_num [suppressStep, calculate_iou, redDet, blueDet, boxA, boxB]
  have hex : ∃ d ∈ filtered_detections [redDet, blueDet], ¬ pyLower d.class_name = "red" := by
    rw [hfilt]
    exact ⟨blueDet, by simp, by decide⟩
  have hcount : expected_type_count "red"
      (detections_by_class (filtered_detections [redDet, blueDet])) = 1 := by
    rw [hfilt]
    decide
  obtain ⟨hp, hr⟩ := C1_foreign_type_priority "red" 1 [redDet, blueDet] hex
  exact ⟨hex, hcount, hp, hr⟩

/-- C5: with no expected label, the verdict passes iff the count matches
(when constrained) and the confidence clears the `0.3` threshold; the
failure reason is `no-detection` for zero detections, else
`low-confidence` below the threshold, else `count-mismatch`. -/
theorem C5_no_label_policy (cnt : ℤ) (raw : List Detection) :
    ((verify_main true none cnt raw).pass_ = true ↔
      ((cnt ≤ 0 ∨ (verify_main true none cnt raw).count = cnt)
        ∧ confidence_threshold ≤ (verify_main true none cnt raw).confidence))
    ∧ ((verify_main true none cnt raw).pass_ = false →
        main_reason true none cnt raw
          = if (verify_main true none cnt raw).count = 0 then MismatchReason.noDetection
            else if (verify_main true none cnt raw).confidence < confidence_threshold then
              MismatchReason.lowConfidence
            else MismatchReason.countMismatch) := by
  rw [verify_main_true_eq, main_reason_true_eq]
  simp only [verify_pass, verdict_reason]
  constructor
  · rw [decide_eq_true_eq, imp_iff_not_or, not_lt]
  · intro hfail
    rw [decide_eq_false_iff_not] at hfail
    rw [if_neg hfail]

theorem C5_no_label_policy_witness :
    (verify_main true none 0 [bigDet]).pass_ = true
    ∧ (verify_main true none 3 []).pass_ = false
    ∧ main_reason true none 3 [] = MismatchReason.noDetection := by
  have hfilt1 : filtered_detections [bigDet] = [bigDet] := filtered_detections_singleton bigDet
  have h1 : (verify_main true none 0 [bigDet]).pass_ = true := by
    apply (C5_no_label_policy 0 [bigDet]).1.mpr
    constructor
    · exact Or.inl le_rfl
    · have hconf : (verify_main true none 0 [bigDet]).confidence
          = mean_confidence (filtered_detections [bigDet]) := rfl
      rw [hconf, hfilt1]
      norm_num [mean_confidence, bigDet, confidence_threshold, List.cons_ne_nil]
  have hempty : filtered_detections ([] : List Detection) = [] := rfl
  have h2 : (verify_main true none 3 []).pass_ = false := by
    rw [verify_main_true_eq]
    simp [verify_pass, hempty, detections_by_class, detected_count, mean_confidence,
      confidence_threshold]
  have h3 : main_reason true none 3 [] = MismatchReason.noDetection := by
    have := (C5_no_label_policy 3 []).2 h2
    rw [this]
    simp [verify_main_true_eq, hempty, detections_by_class, detected_count]
  exact ⟨h1, h2, h3⟩

/-- C6: when no detector model is loaded, the endpoint returns a failing
verdict with zero count, no classes and zero confidence (the
`detector-unavailable` branch), as a total function — the caught exception
of lines 702-713 never escapes to the caller. -/
theorem C6_detector_unavailable (expected_label : Option String) (expected_count : ℤ)
    (raw : List Detection) :
    verify_main false expected_label expected_count raw
      = { pass_ := false, count := 0, classesDetected := [], confidence := 0 }
    ∧ main_reason false expected_label expected_count raw
        = MismatchReason.detectorUnavailable :=
  ⟨rfl, rfl⟩

/-- C10: the claimed mock behavior never reaches the caller.  With
`MOCK_VERIFIER` enabled, every `/verify` request — any expectation, any
image, any detector state — is answered with HTTP 400: `Image` is `None`
(line 24), so the decode at line 237 raises and the handler at lines
241-242 rejects the request before the mock check at line 267.  The mock
branch of lines 266-296 is dead code whose body would compute exactly the
claimed response: `pass=true`, confidence `0.95`, count equal to
`Expectation.count` when positive and `1` otherwise, and one class entry
carrying the normalised expected label (else `"pill_mock"`) with that
count. -/
theorem C10_mock_unreachable (model_loaded image_ok : Bool) (e : Expectation)
    (raw : List Detection) :
    verify_request true model_loaded image_ok e raw = RequestResult.httpError 400
    ∧ (mock_verify e).pass_ = true
    ∧ (mock_verify e).confidence = 95/100
    ∧ (mock_verify e).count
        = (if 0 < expected_count_of e then expected_count_of e else 1)
    ∧ (mock_verify e).classesDetected
        = [⟨(expected_label_of e).getD "pill_mock", (mock_verify e).count⟩] := by
  refine ⟨rfl, rfl, rfl, rfl, ?_⟩
  cases hE : expected_label_of e <;> simp [mock_verify, hE]

theorem verify_pass_some_true {lbl : String} {cnt : ℤ} {classes : List ClassCount}
    {dcount : ℤ} {conf : ℚ}
    (h : verify_pass (some lbl) cnt classes dcount conf = true) :
    ¬ (0 < foreign_type_count lbl classes) ∧ has_expected_type lbl classes
    ∧ (0 < cnt → expected_type_count lbl classes = cnt) := by
  simp only [verify_pass] at h
  split_ifs at h with h1 h2 h3
  exact ⟨h1, h2, h3⟩

theorem all_match_of_foreign_nonpos {lbl : String} {l : List Detection}
    (h : ¬ 0 < foreign_type_count lbl (detections_by_class l)) :
    ∀ d ∈ l, pyLower d.class_name = lbl := by
  rw [foreign_type_count_eq_length] at h
  push_neg at h
  have hle : (l.filter (fun d => decide (¬ pyLower d.class_name = lbl))).length ≤ 0 := by
    exact_mod_cast h
  have hnil : l.filter (fun d => decide (¬ pyLower d.class_name = lbl)) = [] :=
    List.length_eq_zero.mp (Nat.le_zero.mp hle)
  intro d hd
  by_contra hne
  have hmem : d ∈ l.filter (fun d => decide (¬ pyLower d.class_name = lbl)) :=
    List.mem_filter.mpr ⟨hd, by simpa using hne⟩
  rw [hnil] at hmem
  exact absurd hmem (List.not_mem_nil d)

theorem classes_all_match {lbl : String} {l : List Detection}
    (h : ∀ d ∈ l, pyLower d.class_name = lbl) :
    ∀ c ∈ detections_by_class l, pyLower c.label = lbl := by
  intro c hc
  by_contra hne
  obtain ⟨d, hd, hpd⟩ :=
    (exists_label_detections_by_class (fun nm => ¬ pyLower nm = lbl) l).mp ⟨c, hc, hne⟩
  exact hpd (h d hd)

theorem expected_count_eq_total {lbl : String} {l : List Detection}
    (h : ∀ d ∈ l, pyLower d.class_name = lbl) :
    expected_type_count lbl (detections_by_class l)
      = detected_count (detections_by_class l) := by
  rw [expected_type_count_eq_length, detected_count_eq_length]
  congr 1
  rw [List.filter_eq_self.mpr]
  intro d hd
  simpa using h d hd

/-- C3: whenever the verification (mock or inference path) passes, the
decision branch taken is the no-mismatch one, and — when an expected label
was supplied — every reported class entry carries that label (lowercased),
at least one entry is present, and when the count expectation is positive
the total reported count of that label equals it exactly. -/
theorem C3_pass_invariant (mock model_loaded : Bool) (e : Expectation) (raw : List Detection)
    (hpass : (verify_endpoint mock model_loaded e raw).pass_ = true) :
    endpoint_reason mock model_loaded e raw = MismatchReason.noMismatch
    ∧ ∀ lbl, expected_label_of e = some lbl →
        ((∀ c ∈ (verify_endpoint mock model_loaded e raw).classesDetected,
            pyLower c.label = lbl)
         ∧ (∃ c ∈ (verify_endpoint mock model_loaded e raw).classesDetected,
            pyLower c.label = lbl)
         ∧ (0 < expected_count_of e →
             detected_count ((verify_endpoint mock model_loaded e raw).classesDetected)
               = expected_count_of e
             ∧ (verify_endpoint mock model_loaded e raw).count = expected_count_of e)) := by
  cases mock with
  | true =>
    refine ⟨rfl, ?_⟩
    intro lbl hlbl
    have hidem : pyLower lbl = lbl := expected_label_lower_idem e lbl hlbl
    have hcls : (verify_endpoint true model_loaded e raw).classesDetected
        = [⟨lbl, if 0 < expected_count_of e then expected_count_of e else 1⟩] := by
      show (mock_verify e).classesDetected = _
      simp [mock_verify, hlbl]
    have hcnt : (verify_endpoint true model_loaded e raw).count
        = if 0 < expected_count_of e then expected_count_of e else 1 := by
      show (mock_verify e).count = _
      simp [mock_verify]
    refine ⟨?_, ?_, ?_⟩
    · intro c hc
      rw [hcls, List.mem_singleton] at hc
      rw [hc]
      exact hidem
    · exact ⟨_, by rw [hcls]; exact List.mem_singleton_self _, hidem⟩
    · intro hpos
      rw [hcls, hcnt, if_pos hpos]
      constructor
      · simp [detected_count]
      · rfl
  | false =>
    cases model_loaded with
    | false => exact absurd hpass (by simp [verify_endpoint, verify_main])
    | true =>
      have hEnd : verify_endpoint false true e raw
          = verify_main true (expected_label_of e) (expected_count_of e) raw := rfl
      have hRsn : endpoint_reason false true e raw
          = main_reason true (expected_label_of e) (expected_count_of e) raw := rfl
      rw [hEnd, verify_main_true_eq] at hpass ⊢
      rw [hRsn, main_reason_true_eq]
      rcases hE : expected_label_of e with _ | lbl0
      · rw [hE] at hpass
        simp only at hpass
        refine ⟨?_, ?_⟩
        · simp only [verdict_reason]
          rw [if_pos]
          simp only [verify_pass, decide_eq_true_eq] at hpass
          exact hpass
        · intro lbl hlbl
          exact absurd hlbl (by simp)
      · rw [hE] at hpass
        simp only at hpass
        obtain ⟨h1, h2, h3⟩ := verify_pass_some_true hpass
        have hall : ∀ d ∈ filtered_detections raw, pyLower d.class_name = lbl0 :=
          all_match_of_foreign_nonpos h1
        refine ⟨?_, ?_⟩
        · simp only [verdict_reason]
          rw [if_neg h1, if_neg (not_not.mpr h2), if_neg (not_not.mpr h3)]
        · intro lbl hlbl
          have hl : lbl0 = lbl := by injection hlbl
          subst hl
          refine ⟨classes_all_match hall, h2, ?_⟩
          intro hpos
          have htot : expected_type_count lbl0
              (detections_by_class (filtered_detections raw))
              = detected_count (detections_by_class (filtered_detections raw)) :=
            expected_count_eq_total hall
          have := h3 hpos
          constructor
          · rw [← htot]
            exact this
          · rw [← htot]
            exact this

theorem C3_pass_invariant_witness :
    (verify_endpoint false true ⟨some "Red", none, none, none, some 1⟩ [redDet]).pass_ = true
    ∧ endpoint_reason false true ⟨some "Red", none, none, none, some 1⟩ [redDet]
        = MismatchReason.noMismatch
    ∧ ∀ c ∈ (verify_endpoint false true ⟨some "Red", none, none, none, some 1⟩
        [redDet]).classesDetected, pyLower c.label = "red" := by
  have hfilt : filtered_detections [redDet] = [redDet] := filtered_detections_singleton redDet
  have hlbl : expected_label_of ⟨some "Red", none, none, none, some 1⟩ = some "red" := by
    decide
  have hpass : (verify_endpoint false true ⟨some "Red", none, none, none, some 1⟩
      [redDet]).pass_ = true := by
    have hEnd : verify_endpoint false true ⟨some "Red", none, none, none, some 1⟩ [redDet]
        = verify_main true (some "red") 1 [redDet] := by
      show verify_main true (expected_label_of ⟨some "Red", none, none, none, some 1⟩)
          (expected_count_of ⟨some "Red", none, none, none, some 1⟩) [redDet] = _
      rw [hlbl]
      rfl
    rw [hEnd, verify_main_true_eq]
    simp only [verify_pass, hfilt]
    rw [if_neg, if_neg, if_neg]
    · decide
    · decide
    · decide
  have hres := C3_pass_invariant false true ⟨some "Red", none, none, none, some 1⟩
    [redDet] hpass
  exact ⟨hpass, hres.1, (hres.2 "red" hlbl).1⟩

end PillNow
